import Mathlib

/-!
Shallow embedding of `osfmk/x86_64/monotonic_x86_64.c` (xnu-4570.71.2):
the per-core fixed-function PMC driver.  Machine integers are `Nat` with
explicit reduction modulo `2^64` (the C `uint64_t` arithmetic) and modulo
`2^48` (the hardware counter width).  Fallible paths (`panic`, failed
`assert`) are modelled with `Except String`.
-/

namespace Monotonic

/-- `CTR_MAX`: `(1 << 48) - 1`, the largest raw value a 48-bit fixed counter
can hold. -/
def CTR_MAX : Nat := (1 <<< 48) - 1

/-- `CTR_FIX_POS(CTR)`: the overflow-status bit of fixed counter `CTR`
(`((1 << CTR) << 32)`). -/
def CTR_FIX_POS (ctr : Nat) : Nat := (1 <<< ctr) <<< 32

/-- `FIXED_CTR_CTRL`: MSR number of the fixed-counter control register. -/
def FIXED_CTR_CTRL : Nat := 0x38d

/-- `FIXED_CTR_CTRL_INIT`: `0x888 | 0x333`, enabling all three fixed
counters in all rings with PMI delivery on overflow. -/
def FIXED_CTR_CTRL_INIT : Nat := 0x888 ||| 0x333

/-- `GLOBAL_CTRL`: MSR number of the global counter-enable register. -/
def GLOBAL_CTRL : Nat := 0x38f

/-- `GLOBAL_CTRL_FIXED_EN`: `((1 << 3) - 1) << 32`, the global-enable mask
turning the three fixed counters on. -/
def GLOBAL_CTRL_FIXED_EN : Nat := ((1 <<< 3) - 1) <<< 32

/-- `GLOBAL_STATUS`: MSR number of the overflow-status register. -/
def GLOBAL_STATUS : Nat := 0x38e

/-- `MSR_IA32_PERF_FIXED_CTR0` (from `i386/proc_reg.h`, outside src/): the
MSR number of fixed counter 0; `PMC_FIXED_WR(CTR)` is this plus `CTR`. -/
def MSR_IA32_PERF_FIXED_CTR0 : Nat := 0x309

/-- `MT_CORE_NFIXED` (from `x86_64/monotonic.h`, outside src/): the number
of fixed counters; all loops in the source run over `i = 0, 1, 2`. -/
def MT_CORE_NFIXED : Nat := 3

/-- 64-bit wrapping subtraction on `Nat` values below `2^64`, the semantics
of C `uint64_t` subtraction `a - b`. -/
def u64sub (a b : Nat) : Nat := (a + 2 ^ 64 - b % 2 ^ 64) % 2 ^ 64

/-- `struct mt_cpu`: the per-core monotonic state record, holding the
last-written raw snapshot and the 64-bit accumulated logical count for each
of the three fixed counters. -/
structure MtCpu where
  mtc_snaps : Fin 3 → Nat
  mtc_counts : Fin 3 → Nat

/-- Hardware state visible to this driver: the three 48-bit fixed counters,
the two control MSRs, the read-only overflow-status MSR, and a log of every
MSR write performed (`wrmsr64` appends to it). -/
structure HwState where
  fixedCtr : Fin 3 → Nat
  fixed_ctr_ctrl : Nat
  global_ctrl : Nat
  global_status : Nat
  wr_trace : List (Nat × Nat)

/-- Whole-machine state: the feature flag `mt_core_supported`, the current
core's `cpu_monotonic` record, the hardware, the global PMI diagnostic
counter `mt_pmis`, and whether interrupts are enabled on this core. -/
structure Machine where
  mt_core_supported : Bool
  cpu_monotonic : MtCpu
  hw : HwState
  mt_pmis : Nat
  intr_enabled : Bool

/-- `wrmsr64(reg, v)`: logs the write and updates the modelled register.
Writes to a fixed-counter MSR keep the low 48 bits (hardware counter
width); writes to unmodelled MSRs only appear in the log. -/
def wrmsr64 (reg v : Nat) (hw : HwState) : HwState :=
  let v := v % 2 ^ 64
  let hw := { hw with wr_trace := hw.wr_trace ++ [(reg, v)] }
  if reg = MSR_IA32_PERF_FIXED_CTR0 then
    { hw with fixedCtr := Function.update hw.fixedCtr 0 (v % 2 ^ 48) }
  else if reg = MSR_IA32_PERF_FIXED_CTR0 + 1 then
    { hw with fixedCtr := Function.update hw.fixedCtr 1 (v % 2 ^ 48) }
  else if reg = MSR_IA32_PERF_FIXED_CTR0 + 2 then
    { hw with fixedCtr := Function.update hw.fixedCtr 2 (v % 2 ^ 48) }
  else if reg = FIXED_CTR_CTRL then
    { hw with fixed_ctr_ctrl := v }
  else if reg = GLOBAL_CTRL then
    { hw with global_ctrl := v }
  else
    hw

/-- `mt_core_snap(ctr)`: read the raw value of fixed counter `ctr`.
Returns 0 if the feature is unsupported; panics on an index outside
`{0,1,2}`. -/
def mt_core_snap (m : Machine) (ctr : Nat) : Except String Nat :=
  if !m.mt_core_supported then
    .ok 0
  else
    match ctr with
    | 0 => .ok (m.hw.fixedCtr 0)
    | 1 => .ok (m.hw.fixedCtr 1)
    | 2 => .ok (m.hw.fixedCtr 2)
    | _ => .error "monotonic: invalid core counter read"

/-- `mt_core_set_snap(ctr, count)`: write `count` into fixed counter
`ctr`'s MSR.  No-op if the feature is unsupported; panics on an index
outside `{0,1,2}`. -/
def mt_core_set_snap (m : Machine) (ctr : Nat) (count : Nat) :
    Except String Machine :=
  if !m.mt_core_supported then
    .ok m
  else
    match ctr with
    | 0 => .ok { m with hw := wrmsr64 (MSR_IA32_PERF_FIXED_CTR0 + 0) count m.hw }
    | 1 => .ok { m with hw := wrmsr64 (MSR_IA32_PERF_FIXED_CTR0 + 1) count m.hw }
    | 2 => .ok { m with hw := wrmsr64 (MSR_IA32_PERF_FIXED_CTR0 + 2) count m.hw }
    | _ => .error "monotonic: invalid core counter write"

/-- Modelled from the spec: one counter's share of
`mt_mtc_update_fixed_counts` (`osfmk/kern/monotonic.c`, not under src/).
The spec's Parked transition says to read current hardware state and fold
the outstanding (non-wrapping) delta into the accumulator; a retrograde
hardware read contributes zero. -/
def mt_flush_one (hwctr : Fin 3 → Nat) (i : Fin 3) (mtc : MtCpu) : MtCpu :=
  let snap := hwctr i
  let delta := snap - mtc.mtc_snaps i
  { mtc_counts := Function.update mtc.mtc_counts i
      ((mtc.mtc_counts i + delta) % 2 ^ 64)
    mtc_snaps := Function.update mtc.mtc_snaps i snap }

/-- Modelled from the spec: `mt_mtc_update_fixed_counts(mtc, NULL, NULL)`
(`osfmk/kern/monotonic.c`, not under src/), the flush in the Parked
transition, folding each counter's outstanding delta (loop over
`MT_CORE_NFIXED = 3`, unrolled). -/
def mt_mtc_update_fixed_counts (mtc : MtCpu) (hwctr : Fin 3 → Nat) : MtCpu :=
  mt_flush_one hwctr 2 (mt_flush_one hwctr 1 (mt_flush_one hwctr 0 mtc))

/-- Modelled from the spec: `mt_mtc_update_count` (`osfmk/kern/monotonic.c`,
not under src/), called by the PMI handler after it has folded the wrap
delta.  The spec's handler step 3 specifies the complete per-counter effect
as updating `accumulated[i]` and resetting `snapshot[i]` to 0, both already
performed by the handler body, and attributes no further state change to
this call, so it is modelled as the identity on the record. -/
def mt_mtc_update_count (mtc : MtCpu) (_ctr : Fin 3) : MtCpu := mtc

/-- `core_down(cpu)`: the Active → Parked transition.  No-op if
unsupported; asserts interrupts are disabled; clears `GLOBAL_CTRL` and
flushes pending accumulation. -/
def core_down (m : Machine) : Except String Machine :=
  if !m.mt_core_supported then
    .ok m
  else if m.intr_enabled then
    .error "assertion failed: interrupts enabled in core_down"
  else
    let m := { m with hw := wrmsr64 GLOBAL_CTRL 0 m.hw }
    .ok { m with
      cpu_monotonic := mt_mtc_update_fixed_counts m.cpu_monotonic m.hw.fixedCtr }

/-- `core_up(cpu)`: the Parked → Active transition.  No-op if unsupported;
asserts interrupts are disabled; writes each snapshot back into its
hardware counter (loop over `MT_CORE_NFIXED = 3`, unrolled), then the
fixed-counter control register, then the global enable mask. -/
def core_up (m : Machine) : Except String Machine :=
  if !m.mt_core_supported then
    .ok m
  else if m.intr_enabled then
    .error "assertion failed: interrupts enabled in core_up"
  else
    let mtc := m.cpu_monotonic
    match mt_core_set_snap m 0 (mtc.mtc_snaps 0) with
    | .error e => .error e
    | .ok m =>
      match mt_core_set_snap m 1 (mtc.mtc_snaps 1) with
      | .error e => .error e
      | .ok m =>
        match mt_core_set_snap m 2 (mtc.mtc_snaps 2) with
        | .error e => .error e
        | .ok m =>
          let m := { m with hw := wrmsr64 FIXED_CTR_CTRL FIXED_CTR_CTRL_INIT m.hw }
          .ok { m with hw := wrmsr64 GLOBAL_CTRL GLOBAL_CTRL_FIXED_EN m.hw }

/-- `mt_cpu_down(cpu)`: public shutdown entry point, delegating to
`core_down`. -/
def mt_cpu_down (m : Machine) : Except String Machine := core_down m

/-- `mt_cpu_up(cpu)`: public startup entry point: disables interrupts,
runs `core_up`, then restores the prior interrupt-enabled state. -/
def mt_cpu_up (m : Machine) : Except String Machine :=
  let intrs_en := m.intr_enabled
  match core_up { m with intr_enabled := false } with
  | .error e => .error e
  | .ok m => .ok { m with intr_enabled := intrs_en }

/-- One fixed counter's share of the PMI handler's loop body: if counter
`i`'s overflow bit is set in `status`, compute
`prior = CTR_MAX - mtc_snaps[i]` (wrapping 64-bit subtraction), assert
`prior <= CTR_MAX`, add `prior + 1` into `mtc_counts[i]`, reset
`mtc_snaps[i]` to 0 and call `mt_mtc_update_count`. -/
def mt_pmi_fixed_step (status : Nat) (i : Fin 3) (mtc : MtCpu) :
    Except String MtCpu :=
  if status &&& CTR_FIX_POS i.val ≠ 0 then
    let prior := u64sub CTR_MAX (mtc.mtc_snaps i)
    if prior ≤ CTR_MAX then
      let prior := prior + 1
      let mtc : MtCpu :=
        { mtc_counts := Function.update mtc.mtc_counts i
            ((mtc.mtc_counts i + prior) % 2 ^ 64)
          mtc_snaps := Function.update mtc.mtc_snaps i 0 }
      .ok (mt_mtc_update_count mtc i)
    else
      .error "assertion failed: prior <= CTR_MAX"
  else
    .ok mtc

/-- Result of one PMI-handler invocation: the post state, the handler's
`int` return value, how many times `kpc_pmi_handler` was invoked, and the
interrupt context forwarded to it (if any). -/
structure PmiOut where
  machine : Machine
  ret : Nat
  kpc_calls : Nat
  kpc_arg : Option Nat

/-- `mt_pmi_x86_64(state)`: the PMI handler.  Asserts interrupts are
disabled, reads `GLOBAL_STATUS`, atomically increments `mt_pmis`, folds
each overflowed fixed counter (loop over `MT_CORE_NFIXED = 3`, unrolled),
forwards to `kpc_pmi_handler` if any configurable-counter overflow bit
(low four status bits) is set, and returns 0. -/
def mt_pmi_x86_64 (m : Machine) (ctx : Nat) : Except String PmiOut :=
  if m.intr_enabled then
    .error "assertion failed: interrupts enabled in mt_pmi_x86_64"
  else
    let status := m.hw.global_status
    let m := { m with mt_pmis := (m.mt_pmis + 1) % 2 ^ 64 }
    match mt_pmi_fixed_step status 0 m.cpu_monotonic with
    | .error e => .error e
    | .ok mtc =>
      match mt_pmi_fixed_step status 1 mtc with
      | .error e => .error e
      | .ok mtc =>
        match mt_pmi_fixed_step status 2 mtc with
        | .error e => .error e
        | .ok mtc =>
          let m := { m with cpu_monotonic := mtc }
          if status &&& ((1 <<< 4) - 1) ≠ 0 then
            .ok { machine := m, ret := 0, kpc_calls := 1, kpc_arg := some ctx }
          else
            .ok { machine := m, ret := 0, kpc_calls := 0, kpc_arg := none }

/-- Total description of one fixed counter's fold when the handler's
assertion passes: the counter's wrap delta is added (mod `2^64`) and its
snapshot reset, other counters untouched. -/
def mt_fix_apply (status : Nat) (i : Fin 3) (mtc : MtCpu) : MtCpu :=
  if status &&& CTR_FIX_POS i.val ≠ 0 then
    { mtc_counts := Function.update mtc.mtc_counts i
        ((mtc.mtc_counts i + (u64sub CTR_MAX (mtc.mtc_snaps i) + 1)) % 2 ^ 64)
      mtc_snaps := Function.update mtc.mtc_snaps i 0 }
  else
    mtc

/-- Total description of the handler's whole fixed-counter loop. -/
def mt_pmi_apply (status : Nat) (mtc : MtCpu) : MtCpu :=
  mt_fix_apply status 2 (mt_fix_apply status 1 (mt_fix_apply status 0 mtc))

theorem CTR_MAX_eq : CTR_MAX = 2 ^ 48 - 1 := by
  simp [CTR_MAX, Nat.shiftLeft_eq]

theorem u64sub_of_le {b : Nat} (h : b ≤ CTR_MAX) :
    u64sub CTR_MAX b = CTR_MAX - b := by
  rw [CTR_MAX_eq] at h ⊢
  unfold u64sub
  have hb : b % 2 ^ 64 = b := Nat.mod_eq_of_lt (by omega)
  rw [hb]
  have h2 : (2 : Nat) ^ 48 - 1 + 2 ^ 64 - b = (2 ^ 48 - 1 - b) + 2 ^ 64 := by
    omega
  rw [h2, Nat.add_mod_right, Nat.mod_eq_of_lt (by omega)]

theorem u64sub_le_of_le {b : Nat} (h : b ≤ CTR_MAX) :
    u64sub CTR_MAX b ≤ CTR_MAX := by
  rw [u64sub_of_le h]; omega

theorem mt_pmi_fixed_step_eq {mtc : MtCpu} {status : Nat} {i : Fin 3}
    (h : mtc.mtc_snaps i ≤ CTR_MAX) :
    mt_pmi_fixed_step status i mtc = .ok (mt_fix_apply status i mtc) := by
  unfold mt_pmi_fixed_step mt_fix_apply mt_mtc_update_count
  split
  · rw [if_pos (u64sub_le_of_le h)]
  · rfl

theorem mt_fix_apply_snaps_le {mtc : MtCpu} {status : Nat} {i : Fin 3}
    (h : ∀ j, mtc.mtc_snaps j ≤ CTR_MAX) :
    ∀ j, (mt_fix_apply status i mtc).mtc_snaps j ≤ CTR_MAX := by
  intro j
  unfold mt_fix_apply
  split
  · by_cases hji : j = i
    · subst hji; simp [Function.update_same]
    · simp [Function.update_noteq hji]; exact h j
  · exact h j

theorem mt_fix_apply_counts_ne {mtc : MtCpu} {status : Nat} {i j : Fin 3}
    (h : j ≠ i) :
    (mt_fix_apply status i mtc).mtc_counts j = mtc.mtc_counts j := by
  unfold mt_fix_apply
  split
  · simp [Function.update_noteq h]
  · rfl

theorem mt_fix_apply_snaps_ne {mtc : MtCpu} {status : Nat} {i j : Fin 3}
    (h : j ≠ i) :
    (mt_fix_apply status i mtc).mtc_snaps j = mtc.mtc_snaps j := by
  unfold mt_fix_apply
  split
  · simp [Function.update_noteq h]
  · rfl

theorem mt_fix_apply_counts_self {mtc : MtCpu} {status : Nat} {i : Fin 3}
    (hbit : status &&& CTR_FIX_POS i.val ≠ 0) :
    (mt_fix_apply status i mtc).mtc_counts i =
      (mtc.mtc_counts i + (u64sub CTR_MAX (mtc.mtc_snaps i) + 1)) % 2 ^ 64 := by
  unfold mt_fix_apply
  rw [if_pos hbit]
  simp [Function.update_same]

theorem mt_fix_apply_snaps_self {mtc : MtCpu} {status : Nat} {i : Fin 3}
    (hbit : status &&& CTR_FIX_POS i.val ≠ 0) :
    (mt_fix_apply status i mtc).mtc_snaps i = 0 := by
  unfold mt_fix_apply
  rw [if_pos hbit]
  simp [Function.update_same]

theorem mt_fix_apply_of_not {mtc : MtCpu} {status : Nat} {i : Fin 3}
    (hbit : ¬status &&& CTR_FIX_POS i.val ≠ 0) :
    mt_fix_apply status i mtc = mtc := by
  unfold mt_fix_apply
  rw [if_neg hbit]

/-- Full functional characterization of one PMI-handler invocation, under
the data-model invariant that all snapshots are within the 48-bit range. -/
theorem mt_pmi_x86_64_ok (m : Machine) (ctx : Nat)
    (hintr : m.intr_enabled = false)
    (hs : ∀ j, m.cpu_monotonic.mtc_snaps j ≤ CTR_MAX) :
    mt_pmi_x86_64 m ctx = .ok
      { machine := { m with
          cpu_monotonic := mt_pmi_apply m.hw.global_status m.cpu_monotonic
          mt_pmis := (m.mt_pmis + 1) % 2 ^ 64 }
        ret := 0
        kpc_calls :=
          if m.hw.global_status &&& ((1 <<< 4) - 1) ≠ 0 then 1 else 0
        kpc_arg :=
          if m.hw.global_status &&& ((1 <<< 4) - 1) ≠ 0 then some ctx
          else none } := by
  have h0 : ∀ j, (mt_fix_apply m.hw.global_status 0 m.cpu_monotonic).mtc_snaps j ≤ CTR_MAX :=
    mt_fix_apply_snaps_le hs
  have h1 : ∀ j, (mt_fix_apply m.hw.global_status 1
      (mt_fix_apply m.hw.global_status 0 m.cpu_monotonic)).mtc_snaps j ≤ CTR_MAX :=
    mt_fix_apply_snaps_le h0
  unfold mt_pmi_x86_64
  rw [hintr]
  simp only [Bool.false_eq_true, if_false]
  rw [mt_pmi_fixed_step_eq (hs 0)]
  dsimp only
  rw [mt_pmi_fixed_step_eq (h0 1)]
  dsimp only
  rw [mt_pmi_fixed_step_eq (h1 2)]
  dsimp only
  unfold mt_pmi_apply
  split <;> rfl

theorem fin3_cases (i : Fin 3) : i = 0 ∨ i = 1 ∨ i = 2 := by
  rcases i with ⟨iv, hlt⟩
  interval_cases iv
  · exact Or.inl rfl
  · exact Or.inr (Or.inl rfl)
  · exact Or.inr (Or.inr rfl)

theorem mt_pmi_apply_counts_self {mtc : MtCpu} {status : Nat} (i : Fin 3)
    (hbit : status &&& CTR_FIX_POS i.val ≠ 0) :
    (mt_pmi_apply status mtc).mtc_counts i =
      (mtc.mtc_counts i + (u64sub CTR_MAX (mtc.mtc_snaps i) + 1)) % 2 ^ 64 := by
  unfold mt_pmi_apply
  rcases fin3_cases i with rfl | rfl | rfl
  · rw [mt_fix_apply_counts_ne (show (0 : Fin 3) ≠ 2 by decide),
      mt_fix_apply_counts_ne (show (0 : Fin 3) ≠ 1 by decide),
      mt_fix_apply_counts_self hbit]
  · rw [mt_fix_apply_counts_ne (show (1 : Fin 3) ≠ 2 by decide),
      mt_fix_apply_counts_self hbit,
      mt_fix_apply_counts_ne (show (1 : Fin 3) ≠ 0 by decide),
      mt_fix_apply_snaps_ne (show (1 : Fin 3) ≠ 0 by decide)]
  · rw [mt_fix_apply_counts_self hbit,
      mt_fix_apply_counts_ne (show (2 : Fin 3) ≠ 1 by decide),
      mt_fix_apply_counts_ne (show (2 : Fin 3) ≠ 0 by decide),
      mt_fix_apply_snaps_ne (show (2 : Fin 3) ≠ 1 by decide),
      mt_fix_apply_snaps_ne (show (2 : Fin 3) ≠ 0 by decide)]

theorem mt_pmi_apply_snaps_self {mtc : MtCpu} {status : Nat} (i : Fin 3)
    (hbit : status &&& CTR_FIX_POS i.val ≠ 0) :
    (mt_pmi_apply status mtc).mtc_snaps i = 0 := by
  unfold mt_pmi_apply
  rcases fin3_cases i with rfl | rfl | rfl
  · rw [mt_fix_apply_snaps_ne (show (0 : Fin 3) ≠ 2 by decide),
      mt_fix_apply_snaps_ne (show (0 : Fin 3) ≠ 1 by decide),
      mt_fix_apply_snaps_self hbit]
  · rw [mt_fix_apply_snaps_ne (show (1 : Fin 3) ≠ 2 by decide),
      mt_fix_apply_snaps_self hbit]
  · rw [mt_fix_apply_snaps_self hbit]

theorem mt_pmi_apply_counts_unset {mtc : MtCpu} {status : Nat} (i : Fin 3)
    (hbit : status &&& CTR_FIX_POS i.val = 0) :
    (mt_pmi_apply status mtc).mtc_counts i = mtc.mtc_counts i := by
  have hnot : ¬status &&& CTR_FIX_POS i.val ≠ 0 := by simp [hbit]
  unfold mt_pmi_apply
  rcases fin3_cases i with rfl | rfl | rfl
  · rw [mt_fix_apply_counts_ne (show (0 : Fin 3) ≠ 2 by decide),
      mt_fix_apply_counts_ne (show (0 : Fin 3) ≠ 1 by decide),
      mt_fix_apply_of_not hnot]
  · rw [mt_fix_apply_counts_ne (show (1 : Fin 3) ≠ 2 by decide),
      mt_fix_apply_of_not hnot,
      mt_fix_apply_counts_ne (show (1 : Fin 3) ≠ 0 by decide)]
  · rw [mt_fix_apply_of_not hnot,
      mt_fix_apply_counts_ne (show (2 : Fin 3) ≠ 1 by decide),
      mt_fix_apply_counts_ne (show (2 : Fin 3) ≠ 0 by decide)]

theorem mt_pmi_apply_snaps_unset {mtc : MtCpu} {status : Nat} (i : Fin 3)
    (hbit : status &&& CTR_FIX_POS i.val = 0) :
    (mt_pmi_apply status mtc).mtc_snaps i = mtc.mtc_snaps i := by
  have hnot : ¬status &&& CTR_FIX_POS i.val ≠ 0 := by simp [hbit]
  unfold mt_pmi_apply
  rcases fin3_cases i with rfl | rfl | rfl
  · rw [mt_fix_apply_snaps_ne (show (0 : Fin 3) ≠ 2 by decide),
      mt_fix_apply_snaps_ne (show (0 : Fin 3) ≠ 1 by decide),
      mt_fix_apply_of_not hnot]
  · rw [mt_fix_apply_snaps_ne (show (1 : Fin 3) ≠ 2 by decide),
      mt_fix_apply_of_not hnot,
      mt_fix_apply_snaps_ne (show (1 : Fin 3) ≠ 0 by decide)]
  · rw [mt_fix_apply_of_not hnot,
      mt_fix_apply_snaps_ne (show (2 : Fin 3) ≠ 1 by decide),
      mt_fix_apply_snaps_ne (show (2 : Fin 3) ≠ 0 by decide)]

/-- A concrete machine builder used by witnesses and counterexamples. -/
def mkMachine (supported : Bool) (snaps counts : Fin 3 → Nat) (status : Nat) :
    Machine :=
  { mt_core_supported := supported
    cpu_monotonic := { mtc_snaps := snaps, mtc_counts := counts }
    hw := { fixedCtr := fun _ => 0, fixed_ctr_ctrl := 0, global_ctrl := 0,
            global_status := status, wr_trace := [] }
    mt_pmis := 0
    intr_enabled := false }

/-- Sample machine: feature supported, all snapshots 100, all counts 7,
overflow status has only fixed counter 0's bit set. -/
def w1m : Machine := mkMachine true (fun _ => 100) (fun _ => 7) (CTR_FIX_POS 0)

/-- Sample machine for C5: snapshot `2^48 - 5` on every counter, counts 0,
status has only fixed counter 0's bit set. -/
def c5m : Machine :=
  mkMachine true (fun _ => 2 ^ 48 - 5) (fun _ => 0) (CTR_FIX_POS 0)

/-- Sample machine for C3: snapshot 0, counts 0, status has only fixed
counter 0's bit set. -/
def c3m : Machine := mkMachine true (fun _ => 0) (fun _ => 0) (CTR_FIX_POS 0)

/-- Sample per-core record with all-zero snapshots and counts. -/
def c3w_mtc : MtCpu := { mtc_snaps := fun _ => 0, mtc_counts := fun _ => 0 }

/-- Sample machine with the feature unsupported. -/
def unsupM : Machine := mkMachine false (fun _ => 0) (fun _ => 0) 0

/-- Sample machine with the feature supported and quiescent state. -/
def supM : Machine := mkMachine true (fun _ => 0) (fun _ => 0) 0

/-- C1: for every fixed counter `i` in `{0,1,2}` whose overflow bit is set
in the status snapshot, the overflow interrupt handler computes the wrap
delta as `(2^48 - 1 - snapshot[i]) + 1`, increases `accumulated[i]` by
exactly that delta (in 64-bit accumulator arithmetic), and resets
`snapshot[i]` to 0. -/
theorem c1_pmi_wrap_delta (m : Machine) (ctx : Nat) (i : Fin 3)
    (hintr : m.intr_enabled = false)
    (hs : ∀ j, m.cpu_monotonic.mtc_snaps j ≤ CTR_MAX)
    (hbit : m.hw.global_status &&& CTR_FIX_POS i.val ≠ 0) :
    (mt_pmi_x86_64 m ctx).map
      (fun out => (out.machine.cpu_monotonic.mtc_counts i,
                   out.machine.cpu_monotonic.mtc_snaps i)) =
    .ok ((m.cpu_monotonic.mtc_counts i +
          ((2 ^ 48 - 1 - m.cpu_monotonic.mtc_snaps i) + 1)) % 2 ^ 64, 0) := by
  rw [mt_pmi_x86_64_ok m ctx hintr hs]
  simp only [Except.map]
  rw [mt_pmi_apply_counts_self i hbit, mt_pmi_apply_snaps_self i hbit,
      u64sub_of_le (hs i), CTR_MAX_eq]

/-- Witness for C1 at a concrete machine: snapshot 100, count 7, counter 0
overflowed. -/
theorem c1_pmi_wrap_delta_witness :
    (mt_pmi_x86_64 w1m 0).map
      (fun out => (out.machine.cpu_monotonic.mtc_counts 0,
                   out.machine.cpu_monotonic.mtc_snaps 0)) =
    .ok ((w1m.cpu_monotonic.mtc_counts 0 +
          ((2 ^ 48 - 1 - w1m.cpu_monotonic.mtc_snaps 0) + 1)) % 2 ^ 64, 0) :=
  c1_pmi_wrap_delta w1m 0 0 rfl (by decide) (by decide)

/-- C5 counterexample: with snapshot `s = 2^48 - 5` the handler folds a
wrap delta of exactly 5 (the distance to the maximum is 4, plus 1 for the
wrap), not 6 as the claim states: the accumulator goes from 0 to 5. -/
theorem c5_wrap_delta_counterexample :
    (mt_pmi_x86_64 c5m 0).map
      (fun out => (out.machine.cpu_monotonic.mtc_counts 0,
                   out.machine.cpu_monotonic.mtc_snaps 0)) = .ok (5, 0) ∧
    (5 : Nat) ≠ 6 := ⟨rfl, by decide⟩

/-- C5 amended: with width 48 and snapshot `s = 2^48 - 5`, the handler's
computed wrap delta is exactly 5, so `accumulated[i]` increases by exactly
5 and `snapshot[i]` resets to 0. -/
theorem c5_wrap_delta_amended (m : Machine) (ctx : Nat) (i : Fin 3)
    (hintr : m.intr_enabled = false)
    (hs : ∀ j, m.cpu_monotonic.mtc_snaps j ≤ CTR_MAX)
    (hbit : m.hw.global_status &&& CTR_FIX_POS i.val ≠ 0)
    (h5 : m.cpu_monotonic.mtc_snaps i = 2 ^ 48 - 5) :
    (mt_pmi_x86_64 m ctx).map
      (fun out => (out.machine.cpu_monotonic.mtc_counts i,
                   out.machine.cpu_monotonic.mtc_snaps i)) =
    .ok ((m.cpu_monotonic.mtc_counts i + 5) % 2 ^ 64, 0) := by
  rw [mt_pmi_x86_64_ok m ctx hintr hs]
  simp only [Except.map]
  rw [mt_pmi_apply_counts_self i hbit, mt_pmi_apply_snaps_self i hbit,
      u64sub_of_le (hs i), h5, CTR_MAX_eq]
  norm_num

/-- Witness for the amended C5 at the concrete machine `c5m`. -/
theorem c5_wrap_delta_amended_witness :
    (mt_pmi_x86_64 c5m 0).map
      (fun out => (out.machine.cpu_monotonic.mtc_counts 0,
                   out.machine.cpu_monotonic.mtc_snaps 0)) =
    .ok ((c5m.cpu_monotonic.mtc_counts 0 + 5) % 2 ^ 64, 0) :=
  c5_wrap_delta_amended c5m 0 0 rfl (by decide) (by decide) (by decide)

/-- C3 counterexample: with snapshot 0 the folded wrap delta is `2^48`,
which exceeds `2^48 - 1`, yet no fatal fault occurs: the handler succeeds
and folds it into the accumulator (the source's assertion only bounds the
pre-increment distance). -/
theorem c3_saturation_counterexample :
    (mt_pmi_x86_64 c3m 0).map
      (fun out => out.machine.cpu_monotonic.mtc_counts 0) = .ok (2 ^ 48) ∧
    (2 : Nat) ^ 48 - 1 < 2 ^ 48 := ⟨rfl, by decide⟩

/-- C3 amended: the assert-checked quantity is the pre-increment distance
`CTR_MAX - s` (wrapping 64-bit subtraction).  When `s ≤ CTR_MAX` it is at
most `CTR_MAX`, the assertion passes and the folded wrap delta is at most
`2^48`; when `CTR_MAX < s < 2^64` the assertion fails fatally instead of
folding. -/
theorem c3_saturation_amended (mtc : MtCpu) (status : Nat) (i : Fin 3)
    (hbit : status &&& CTR_FIX_POS i.val ≠ 0) :
    (mtc.mtc_snaps i ≤ CTR_MAX →
      u64sub CTR_MAX (mtc.mtc_snaps i) ≤ CTR_MAX ∧
      u64sub CTR_MAX (mtc.mtc_snaps i) + 1 ≤ 2 ^ 48 ∧
      mt_pmi_fixed_step status i mtc = .ok (mt_fix_apply status i mtc)) ∧
    (CTR_MAX < mtc.mtc_snaps i → mtc.mtc_snaps i < 2 ^ 64 →
      mt_pmi_fixed_step status i mtc =
        .error "assertion failed: prior <= CTR_MAX") := by
  constructor
  · intro hle
    refine ⟨u64sub_le_of_le hle, ?_, mt_pmi_fixed_step_eq hle⟩
    have h := u64sub_le_of_le hle
    rw [CTR_MAX_eq] at h
    rw [CTR_MAX_eq]
    omega
  · intro hgt hlt
    have hmod : mtc.mtc_snaps i % 2 ^ 64 = mtc.mtc_snaps i :=
      Nat.mod_eq_of_lt hlt
    have hgt' : 2 ^ 48 - 1 < mtc.mtc_snaps i := by rw [CTR_MAX_eq] at hgt; exact hgt
    have hval : u64sub CTR_MAX (mtc.mtc_snaps i) =
        CTR_MAX + 2 ^ 64 - mtc.mtc_snaps i := by
      unfold u64sub
      rw [hmod, CTR_MAX_eq, Nat.mod_eq_of_lt (by omega)]
    have hbig : ¬u64sub CTR_MAX (mtc.mtc_snaps i) ≤ CTR_MAX := by
      rw [hval, CTR_MAX_eq]
      omega
    unfold mt_pmi_fixed_step
    rw [if_pos hbit, if_neg hbig]

/-- Witness for the amended C3 at the all-zero record with counter 0's
overflow bit set. -/
theorem c3_saturation_amended_witness :
    (c3w_mtc.mtc_snaps 0 ≤ CTR_MAX →
      u64sub CTR_MAX (c3w_mtc.mtc_snaps 0) ≤ CTR_MAX ∧
      u64sub CTR_MAX (c3w_mtc.mtc_snaps 0) + 1 ≤ 2 ^ 48 ∧
      mt_pmi_fixed_step (CTR_FIX_POS 0) 0 c3w_mtc =
        .ok (mt_fix_apply (CTR_FIX_POS 0) 0 c3w_mtc)) ∧
    (CTR_MAX < c3w_mtc.mtc_snaps 0 → c3w_mtc.mtc_snaps 0 < 2 ^ 64 →
      mt_pmi_fixed_step (CTR_FIX_POS 0) 0 c3w_mtc =
        .error "assertion failed: prior <= CTR_MAX") :=
  c3_saturation_amended c3w_mtc (CTR_FIX_POS 0) 0 (by decide)

/-- C4 counterexample: with the feature flag unset, an invalid index 3 does
NOT trigger a fatal halt: the read silently returns 0 and the write is a
silent no-op (the feature gate is checked before index validation). -/
theorem c4_invalid_index_counterexample :
    mt_core_snap unsupM 3 = .ok 0 ∧
    mt_core_set_snap unsupM 3 42 = .ok unsupM := ⟨rfl, rfl⟩

/-- C4 amended: when the feature is supported, every index outside
`{0,1,2}` passed to `mt_core_snap` or `mt_core_set_snap` triggers a fatal
halt (panic), never a silent no-op, a zero return, or a wraparound. -/
theorem c4_invalid_index_amended (m : Machine) (ctr v : Nat)
    (hsup : m.mt_core_supported = true) (hctr : 3 ≤ ctr) :
    mt_core_snap m ctr = .error "monotonic: invalid core counter read" ∧
    mt_core_set_snap m ctr v =
      .error "monotonic: invalid core counter write" := by
  obtain ⟨n, rfl⟩ : ∃ n, ctr = n + 3 := ⟨ctr - 3, by omega⟩
  unfold mt_core_snap mt_core_set_snap
  rw [hsup]
  constructor <;> rfl

/-- Witness for the amended C4 at a supported machine and index 3. -/
theorem c4_invalid_index_amended_witness :
    mt_core_snap supM 3 = .error "monotonic: invalid core counter read" ∧
    mt_core_set_snap supM 3 42 =
      .error "monotonic: invalid core counter write" :=
  c4_invalid_index_amended supM 3 42 rfl (by decide)

/-- C6: when only fixed counter 1's overflow bit is set (and no other
overflow bit), one handler invocation updates only `accumulated[1]` and
`snapshot[1]`; counters 0 and 2 are unchanged and `kpc_pmi_handler` is not
invoked. -/
theorem c6_only_counter1 (m : Machine) (ctx : Nat)
    (hintr : m.intr_enabled = false)
    (hs : ∀ j, m.cpu_monotonic.mtc_snaps j ≤ CTR_MAX)
    (h1 : m.hw.global_status &&& CTR_FIX_POS 1 ≠ 0)
    (h0 : m.hw.global_status &&& CTR_FIX_POS 0 = 0)
    (h2 : m.hw.global_status &&& CTR_FIX_POS 2 = 0)
    (hcfg : m.hw.global_status &&& ((1 <<< 4) - 1) = 0) :
    (mt_pmi_x86_64 m ctx).map
      (fun out =>
        (out.machine.cpu_monotonic.mtc_counts 0,
         out.machine.cpu_monotonic.mtc_counts 2,
         out.machine.cpu_monotonic.mtc_snaps 0,
         out.machine.cpu_monotonic.mtc_snaps 2,
         out.machine.cpu_monotonic.mtc_counts 1,
         out.machine.cpu_monotonic.mtc_snaps 1,
         out.kpc_calls)) =
    .ok (m.cpu_monotonic.mtc_counts 0,
         m.cpu_monotonic.mtc_counts 2,
         m.cpu_monotonic.mtc_snaps 0,
         m.cpu_monotonic.mtc_snaps 2,
         (m.cpu_monotonic.mtc_counts 1 +
           ((2 ^ 48 - 1 - m.cpu_monotonic.mtc_snaps 1) + 1)) % 2 ^ 64,
         0, 0) := by
  rw [mt_pmi_x86_64_ok m ctx hintr hs]
  simp only [Except.map]
  rw [mt_pmi_apply_counts_unset 0 h0, mt_pmi_apply_counts_unset 2 h2,
      mt_pmi_apply_snaps_unset 0 h0, mt_pmi_apply_snaps_unset 2 h2,
      mt_pmi_apply_counts_self 1 h1, mt_pmi_apply_snaps_self 1 h1,
      u64sub_of_le (hs 1), CTR_MAX_eq, if_neg (by simpa using hcfg)]

/-- Witness for C6 at a concrete machine with only fixed bit 1 set. -/
theorem c6_only_counter1_witness :
    (mt_pmi_x86_64 (mkMachine true (fun _ => 10) (fun _ => 3) (CTR_FIX_POS 1)) 0).map
      (fun out =>
        (out.machine.cpu_monotonic.mtc_counts 0,
         out.machine.cpu_monotonic.mtc_counts 2,
         out.machine.cpu_monotonic.mtc_snaps 0,
         out.machine.cpu_monotonic.mtc_snaps 2,
         out.machine.cpu_monotonic.mtc_counts 1,
         out.machine.cpu_monotonic.mtc_snaps 1,
         out.kpc_calls)) =
    .ok (3, 3, 10, 10, (3 + ((2 ^ 48 - 1 - 10) + 1)) % 2 ^ 64, 0, 0) :=
  c6_only_counter1 (mkMachine true (fun _ => 10) (fun _ => 3) (CTR_FIX_POS 1))
    0 rfl (by decide) (by decide) (by decide) (by decide) (by decide)

/-- C7: when any configurable-counter overflow bit (the low four status
bits, the counters the source forwards to kpc) is set, one handler
invocation forwards the original interrupt context to `kpc_pmi_handler`
exactly once. -/
theorem c7_kpc_forward_once (m : Machine) (ctx : Nat)
    (hintr : m.intr_enabled = false)
    (hs : ∀ j, m.cpu_monotonic.mtc_snaps j ≤ CTR_MAX)
    (hcfg : m.hw.global_status &&& ((1 <<< 4) - 1) ≠ 0) :
    (mt_pmi_x86_64 m ctx).map (fun out => (out.kpc_calls, out.kpc_arg)) =
      .ok (1, some ctx) := by
  rw [mt_pmi_x86_64_ok m ctx hintr hs]
  simp only [Except.map]
  rw [if_pos hcfg, if_pos hcfg]

/-- Witness for C7: configurable counter 2's overflow bit set (status bit
2), context 99 forwarded exactly once. -/
theorem c7_kpc_forward_once_witness :
    (mt_pmi_x86_64 (mkMachine true (fun _ => 0) (fun _ => 0) 4) 99).map
      (fun out => (out.kpc_calls, out.kpc_arg)) = .ok (1, some 99) :=
  c7_kpc_forward_once (mkMachine true (fun _ => 0) (fun _ => 0) 4) 99 rfl
    (by decide) (by decide)

/-- C9: when the feature flag is unset, `mt_core_snap` returns 0 and
`mt_core_set_snap` is a no-op for every index, including invalid ones: the
feature gate is checked before index validation, so no fatal halt occurs. -/
theorem c9_unsupported_gate (m : Machine) (ctr v : Nat)
    (hsup : m.mt_core_supported = false) :
    mt_core_snap m ctr = .ok 0 ∧ mt_core_set_snap m ctr v = .ok m := by
  unfold mt_core_snap mt_core_set_snap
  rw [hsup]
  constructor <;> rfl

/-- Witness for C9 at an unsupported machine with the invalid index 3. -/
theorem c9_unsupported_gate_witness :
    mt_core_snap unsupM 3 = .ok 0 ∧
    mt_core_set_snap unsupM 3 42 = .ok unsupM :=
  c9_unsupported_gate unsupM 3 42 rfl

/-- C10: the PMI handler performs no hardware register writes: the whole
hardware state (counters, control registers, status, write log) is
unchanged; the only mutated state is the per-core record and `mt_pmis`
(incremented by one in 64-bit arithmetic), and the handler returns 0. -/
theorem c10_pmi_frame (m : Machine) (ctx : Nat)
    (hintr : m.intr_enabled = false)
    (hs : ∀ j, m.cpu_monotonic.mtc_snaps j ≤ CTR_MAX) :
    (mt_pmi_x86_64 m ctx).map
      (fun out =>
        (out.machine.hw, out.ret, out.machine.mt_pmis,
         out.machine.mt_core_supported, out.machine.intr_enabled)) =
    .ok (m.hw, 0, (m.mt_pmis + 1) % 2 ^ 64, m.mt_core_supported,
         m.intr_enabled) := by
  rw [mt_pmi_x86_64_ok m ctx hintr hs]
  simp only [Except.map]

/-- Witness for C10 at a concrete machine. -/
theorem c10_pmi_frame_witness :
    (mt_pmi_x86_64 w1m 0).map
      (fun out =>
        (out.machine.hw, out.ret, out.machine.mt_pmis,
         out.machine.mt_core_supported, out.machine.intr_enabled)) =
    .ok (w1m.hw, 0, (w1m.mt_pmis + 1) % 2 ^ 64, w1m.mt_core_supported,
         w1m.intr_enabled) :=
  c10_pmi_frame w1m 0 rfl (by decide)

theorem mt_core_set_snap_zero (m : Machine) (v : Nat)
    (hsup : m.mt_core_supported = true) :
    mt_core_set_snap m 0 v =
      .ok { m with hw := wrmsr64 (MSR_IA32_PERF_FIXED_CTR0 + 0) v m.hw } := by
  unfold mt_core_set_snap
  rw [hsup]
  rfl

theorem mt_core_set_snap_one (m : Machine) (v : Nat)
    (hsup : m.mt_core_supported = true) :
    mt_core_set_snap m 1 v =
      .ok { m with hw := wrmsr64 (MSR_IA32_PERF_FIXED_CTR0 + 1) v m.hw } := by
  unfold mt_core_set_snap
  rw [hsup]
  rfl

theorem mt_core_set_snap_two (m : Machine) (v : Nat)
    (hsup : m.mt_core_supported = true) :
    mt_core_set_snap m 2 v =
      .ok { m with hw := wrmsr64 (MSR_IA32_PERF_FIXED_CTR0 + 2) v m.hw } := by
  unfold mt_core_set_snap
  rw [hsup]
  rfl

/-- Sample machine for C8: supported, snapshots 11, interrupts initially
ENABLED (so the restore-prior-state behaviour is exercised). -/
def c8m : Machine :=
  { mkMachine true (fun _ => 11) (fun _ => 0) 0 with intr_enabled := true }

/-- C8: when the feature is supported, the Parked → Active transition
performs, in this order: write `snapshot[i]` into fixed counter `i`'s MSR
for i = 0, 1, 2; then write `FIXED_CTR_CTRL` with the value enabling all
three fixed counters in all privilege levels (ring bits 3) with PMI
delivery (bit 8) per counter; then write `GLOBAL_CTRL` with the mask whose
bits 32-34 turn all three fixed counters on.  The public entry point
`mt_cpu_up` restores the prior interrupt-enabled state on exit. -/
theorem c8_startup_sequence (m : Machine)
    (hsup : m.mt_core_supported = true)
    (h64 : ∀ j, m.cpu_monotonic.mtc_snaps j < 2 ^ 64) :
    (mt_cpu_up m).map (fun m2 => (m2.hw.wr_trace, m2.intr_enabled)) =
    .ok (m.hw.wr_trace ++
      [(MSR_IA32_PERF_FIXED_CTR0, m.cpu_monotonic.mtc_snaps 0),
       (MSR_IA32_PERF_FIXED_CTR0 + 1, m.cpu_monotonic.mtc_snaps 1),
       (MSR_IA32_PERF_FIXED_CTR0 + 2, m.cpu_monotonic.mtc_snaps 2),
       (FIXED_CTR_CTRL, FIXED_CTR_CTRL_INIT),
       (GLOBAL_CTRL, GLOBAL_CTRL_FIXED_EN)],
     m.intr_enabled) ∧
    (∀ i < 3, (FIXED_CTR_CTRL_INIT >>> (4 * i)) &&& 3 = 3 ∧
              (FIXED_CTR_CTRL_INIT >>> (4 * i)) &&& 8 = 8) ∧
    GLOBAL_CTRL_FIXED_EN = 2 ^ 32 + 2 ^ 33 + 2 ^ 34 := by
  refine ⟨?_, by decide, by decide⟩
  have e0 := Nat.mod_eq_of_lt (h64 0)
  have e1 := Nat.mod_eq_of_lt (h64 1)
  have e2 := Nat.mod_eq_of_lt (h64 2)
  unfold mt_cpu_up core_up
  dsimp only
  rw [hsup]
  simp only [Bool.not_true, Bool.false_eq_true, if_false,
    mt_core_set_snap_zero, mt_core_set_snap_one, mt_core_set_snap_two]
  simp only [Except.map, wrmsr64, MSR_IA32_PERF_FIXED_CTR0, FIXED_CTR_CTRL,
    GLOBAL_CTRL, FIXED_CTR_CTRL_INIT, GLOBAL_CTRL_FIXED_EN, e0, e1, e2,
    List.append_assoc, List.cons_append, List.nil_append, List.singleton_append]
  norm_num
  exact ⟨by decide, by decide⟩

/-- Witness for C8 at a concrete machine with interrupts initially
enabled. -/
theorem c8_startup_sequence_witness :
    (mt_cpu_up c8m).map (fun m2 => (m2.hw.wr_trace, m2.intr_enabled)) =
    .ok (c8m.hw.wr_trace ++
      [(MSR_IA32_PERF_FIXED_CTR0, c8m.cpu_monotonic.mtc_snaps 0),
       (MSR_IA32_PERF_FIXED_CTR0 + 1, c8m.cpu_monotonic.mtc_snaps 1),
       (MSR_IA32_PERF_FIXED_CTR0 + 2, c8m.cpu_monotonic.mtc_snaps 2),
       (FIXED_CTR_CTRL, FIXED_CTR_CTRL_INIT),
       (GLOBAL_CTRL, GLOBAL_CTRL_FIXED_EN)],
     c8m.intr_enabled) ∧
    (∀ i < 3, (FIXED_CTR_CTRL_INIT >>> (4 * i)) &&& 3 = 3 ∧
              (FIXED_CTR_CTRL_INIT >>> (4 * i)) &&& 8 = 8) ∧
    GLOBAL_CTRL_FIXED_EN = 2 ^ 32 + 2 ^ 33 + 2 ^ 34 :=
  c8_startup_sequence c8m rfl (by decide)

/-- The operations of the subsystem, for stating cross-operation
invariants. -/
inductive MtOp where
  | op_core_snap : Nat → MtOp
  | op_core_set_snap : Nat → Nat → MtOp
  | op_cpu_up : MtOp
  | op_cpu_down : MtOp
  | op_pmi : Nat → MtOp

/-- One operation of the subsystem applied to the machine. -/
def step (m : Machine) : MtOp → Except String Machine
  | .op_core_snap ctr =>
    match mt_core_snap m ctr with
    | .error e => .error e
    | .ok _ => .ok m
  | .op_core_set_snap ctr v => mt_core_set_snap m ctr v
  | .op_cpu_up => mt_cpu_up m
  | .op_cpu_down => mt_cpu_down m
  | .op_pmi ctx =>
    match mt_pmi_x86_64 m ctx with
    | .error e => .error e
    | .ok out => .ok out.machine

/-- A sequence of operations of the subsystem. -/
def run (m : Machine) : List MtOp → Except String Machine
  | [] => .ok m
  | op :: ops =>
    match step m op with
    | .error e => .error e
    | .ok m2 => run m2 ops

theorem wrmsr64_fixedCtr_le (reg v : Nat) (hw : HwState)
    (h : ∀ j, hw.fixedCtr j ≤ CTR_MAX) :
    ∀ j, (wrmsr64 reg v hw).fixedCtr j ≤ CTR_MAX := by
  intro j
  have hv : ∀ x : Nat, x % 2 ^ 48 ≤ CTR_MAX := by
    intro x
    rw [CTR_MAX_eq]
    have := Nat.mod_lt x (show 0 < 2 ^ 48 by norm_num)
    omega
  unfold wrmsr64
  dsimp only
  split
  · by_cases hj : j = 0
    · subst hj; simpa [Function.update_same] using hv _
    · simpa [Function.update_noteq hj] using h j
  · split
    · by_cases hj : j = 1
      · subst hj; simpa [Function.update_same] using hv _
      · simpa [Function.update_noteq hj] using h j
    · split
      · by_cases hj : j = 2
        · subst hj; simpa [Function.update_same] using hv _
        · simpa [Function.update_noteq hj] using h j
      · split
        · exact h j
        · split
          · exact h j
          · exact h j

theorem mt_core_set_snap_spec (m m2 : Machine) (ctr v : Nat)
    (hwf : ∀ j, m.hw.fixedCtr j ≤ CTR_MAX)
    (hok : mt_core_set_snap m ctr v = .ok m2) :
    m2.cpu_monotonic = m.cpu_monotonic ∧
    (∀ j, m2.hw.fixedCtr j ≤ CTR_MAX) := by
  unfold mt_core_set_snap at hok
  split at hok
  · simp only [Except.ok.injEq] at hok
    subst hok
    exact ⟨rfl, hwf⟩
  · split at hok
    · simp only [Except.ok.injEq] at hok
      subst hok
      refine ⟨rfl, ?_⟩
      show ∀ j, (wrmsr64 (MSR_IA32_PERF_FIXED_CTR0 + 0) v m.hw).fixedCtr j ≤ CTR_MAX
      exact wrmsr64_fixedCtr_le _ _ _ hwf
    · simp only [Except.ok.injEq] at hok
      subst hok
      refine ⟨rfl, ?_⟩
      show ∀ j, (wrmsr64 (MSR_IA32_PERF_FIXED_CTR0 + 1) v m.hw).fixedCtr j ≤ CTR_MAX
      exact wrmsr64_fixedCtr_le _ _ _ hwf
    · simp only [Except.ok.injEq] at hok
      subst hok
      refine ⟨rfl, ?_⟩
      show ∀ j, (wrmsr64 (MSR_IA32_PERF_FIXED_CTR0 + 2) v m.hw).fixedCtr j ≤ CTR_MAX
      exact wrmsr64_fixedCtr_le _ _ _ hwf
    · simp at hok

theorem core_up_spec (m m2 : Machine)
    (hwf : ∀ j, m.hw.fixedCtr j ≤ CTR_MAX)
    (hok : core_up m = .ok m2) :
    m2.cpu_monotonic = m.cpu_monotonic ∧
    (∀ j, m2.hw.fixedCtr j ≤ CTR_MAX) := by
  unfold core_up at hok
  split at hok
  · simp only [Except.ok.injEq] at hok
    subst hok
    exact ⟨rfl, hwf⟩
  · split at hok
    · simp at hok
    · dsimp only at hok
      split at hok
      · simp at hok
      · next m1 heq1 =>
        split at hok
        · simp at hok
        · next m2' heq2 =>
          split at hok
          · simp at hok
          · next m3 heq3 =>
            simp only [Except.ok.injEq] at hok
            subst hok
            obtain ⟨ha1, hb1⟩ := mt_core_set_snap_spec _ _ _ _ hwf heq1
            obtain ⟨ha2, hb2⟩ := mt_core_set_snap_spec _ _ _ _ hb1 heq2
            obtain ⟨ha3, hb3⟩ := mt_core_set_snap_spec _ _ _ _ hb2 heq3
            refine ⟨?_, ?_⟩
            · show m3.cpu_monotonic = m.cpu_monotonic
              rw [ha3, ha2, ha1]
            · show ∀ j, (wrmsr64 GLOBAL_CTRL GLOBAL_CTRL_FIXED_EN
                  (wrmsr64 FIXED_CTR_CTRL FIXED_CTR_CTRL_INIT m3.hw)).fixedCtr j ≤
                    CTR_MAX
              exact wrmsr64_fixedCtr_le _ _ _ (wrmsr64_fixedCtr_le _ _ _ hb3)

theorem mt_pmi_fixed_step_counts {status : Nat} {i : Fin 3} {mtc mtc2 : MtCpu}
    (hok : mt_pmi_fixed_step status i mtc = .ok mtc2) :
    (∀ j, j ≠ i → mtc2.mtc_counts j = mtc.mtc_counts j) ∧
    mtc2.mtc_counts i ≤ mtc.mtc_counts i + 2 ^ 48 ∧
    (mtc.mtc_counts i + 2 ^ 48 < 2 ^ 64 →
      mtc.mtc_counts i ≤ mtc2.mtc_counts i) := by
  unfold mt_pmi_fixed_step mt_mtc_update_count at hok
  dsimp only at hok
  split at hok
  · split at hok
    · next hle =>
      simp only [Except.ok.injEq] at hok
      subst hok
      have hle' : u64sub CTR_MAX (mtc.mtc_snaps i) ≤ 2 ^ 48 - 1 := by
        rw [CTR_MAX_eq] at hle; exact hle
      refine ⟨fun j hj => by simp [Function.update_noteq hj], ?_, ?_⟩
      · simp only [Function.update_same]
        calc (mtc.mtc_counts i + (u64sub CTR_MAX (mtc.mtc_snaps i) + 1)) % 2 ^ 64
            ≤ mtc.mtc_counts i + (u64sub CTR_MAX (mtc.mtc_snaps i) + 1) :=
              Nat.mod_le _ _
          _ ≤ mtc.mtc_counts i + 2 ^ 48 := by omega
      · intro hlt
        simp only [Function.update_same]
        rw [Nat.mod_eq_of_lt (by omega)]
        omega
    · simp at hok
  · simp only [Except.ok.injEq] at hok
    subst hok
    exact ⟨fun j _ => rfl, Nat.le_add_right _ _, fun _ => le_refl _⟩

theorem mt_flush_one_counts (hwctr : Fin 3 → Nat) (i : Fin 3) (mtc : MtCpu)
    (hb : hwctr i ≤ CTR_MAX) :
    (∀ j, j ≠ i → (mt_flush_one hwctr i mtc).mtc_counts j = mtc.mtc_counts j) ∧
    (mt_flush_one hwctr i mtc).mtc_counts i ≤ mtc.mtc_counts i + 2 ^ 48 ∧
    (mtc.mtc_counts i + 2 ^ 48 < 2 ^ 64 →
      mtc.mtc_counts i ≤ (mt_flush_one hwctr i mtc).mtc_counts i) := by
  unfold mt_flush_one
  have hd : hwctr i - mtc.mtc_snaps i ≤ 2 ^ 48 := by
    rw [CTR_MAX_eq] at hb; omega
  refine ⟨fun j hj => by simp [Function.update_noteq hj], ?_, ?_⟩
  · simp only [Function.update_same]
    calc (mtc.mtc_counts i + (hwctr i - mtc.mtc_snaps i)) % 2 ^ 64
        ≤ mtc.mtc_counts i + (hwctr i - mtc.mtc_snaps i) := Nat.mod_le _ _
      _ ≤ mtc.mtc_counts i + 2 ^ 48 := by omega
  · intro hlt
    simp only [Function.update_same]
    rw [Nat.mod_eq_of_lt (by omega)]
    omega

theorem mt_mtc_update_fixed_counts_counts (mtc : MtCpu) (hwctr : Fin 3 → Nat)
    (hwf : ∀ j, hwctr j ≤ CTR_MAX) (i : Fin 3) :
    (mt_mtc_update_fixed_counts mtc hwctr).mtc_counts i ≤
      mtc.mtc_counts i + 2 ^ 48 ∧
    (mtc.mtc_counts i + 2 ^ 48 < 2 ^ 64 →
      mtc.mtc_counts i ≤ (mt_mtc_update_fixed_counts mtc hwctr).mtc_counts i) := by
  unfold mt_mtc_update_fixed_counts
  rcases fin3_cases i with rfl | rfl | rfl
  · obtain ⟨-, hub, hlb⟩ := mt_flush_one_counts hwctr 0 mtc (hwf 0)
    rw [(mt_flush_one_counts hwctr 2 _ (hwf 2)).1 0 (by decide),
        (mt_flush_one_counts hwctr 1 _ (hwf 1)).1 0 (by decide)]
    exact ⟨hub, hlb⟩
  · obtain ⟨hne1, -, -⟩ := mt_flush_one_counts hwctr 0 mtc (hwf 0)
    obtain ⟨-, hub, hlb⟩ :=
      mt_flush_one_counts hwctr 1 (mt_flush_one hwctr 0 mtc) (hwf 1)
    rw [hne1 1 (by decide)] at hub hlb
    rw [(mt_flush_one_counts hwctr 2 _ (hwf 2)).1 1 (by decide)]
    exact ⟨hub, hlb⟩
  · obtain ⟨hne1, -, -⟩ := mt_flush_one_counts hwctr 0 mtc (hwf 0)
    obtain ⟨hne2, -, -⟩ :=
      mt_flush_one_counts hwctr 1 (mt_flush_one hwctr 0 mtc) (hwf 1)
    obtain ⟨-, hub, hlb⟩ :=
      mt_flush_one_counts hwctr 2
        (mt_flush_one hwctr 1 (mt_flush_one hwctr 0 mtc)) (hwf 2)
    rw [hne2 2 (by decide), hne1 2 (by decide)] at hub hlb
    exact ⟨hub, hlb⟩

/-- Every successful operation keeps hardware counters in 48-bit range and
moves each accumulator up by at most `2^48`; it never moves it down unless
the 64-bit accumulator addition wraps. -/
theorem step_counts_spec (m : Machine) (op : MtOp) (m2 : Machine)
    (hwf : ∀ j, m.hw.fixedCtr j ≤ CTR_MAX)
    (hok : step m op = .ok m2) :
    (∀ j, m2.hw.fixedCtr j ≤ CTR_MAX) ∧
    ∀ i, m2.cpu_monotonic.mtc_counts i ≤ m.cpu_monotonic.mtc_counts i + 2 ^ 48 ∧
      (m.cpu_monotonic.mtc_counts i + 2 ^ 48 < 2 ^ 64 →
        m.cpu_monotonic.mtc_counts i ≤ m2.cpu_monotonic.mtc_counts i) := by
  cases op with
  | op_core_snap ctr =>
    unfold step at hok
    dsimp only at hok
    split at hok
    · simp at hok
    · simp only [Except.ok.injEq] at hok
      subst hok
      exact ⟨hwf, fun i => ⟨Nat.le_add_right _ _, fun _ => le_refl _⟩⟩
  | op_core_set_snap ctr v =>
    unfold step at hok
    dsimp only at hok
    obtain ⟨hmtc, hfix⟩ := mt_core_set_snap_spec _ _ _ _ hwf hok
    refine ⟨hfix, fun i => ?_⟩
    rw [hmtc]
    exact ⟨Nat.le_add_right _ _, fun _ => le_refl _⟩
  | op_cpu_up =>
    unfold step mt_cpu_up at hok
    dsimp only at hok
    split at hok
    · simp at hok
    · next m3 heq =>
      simp only [Except.ok.injEq] at hok
      subst hok
      obtain ⟨hmtc, hfix⟩ :=
        core_up_spec { m with intr_enabled := false } m3 hwf heq
      refine ⟨hfix, fun i => ?_⟩
      show m3.cpu_monotonic.mtc_counts i ≤ _ ∧ _
      rw [hmtc]
      exact ⟨Nat.le_add_right _ _, fun _ => le_refl _⟩
  | op_cpu_down =>
    unfold step mt_cpu_down core_down at hok
    dsimp only at hok
    split at hok
    · simp only [Except.ok.injEq] at hok
      subst hok
      exact ⟨hwf, fun i => ⟨Nat.le_add_right _ _, fun _ => le_refl _⟩⟩
    · split at hok
      · simp at hok
      · simp only [Except.ok.injEq] at hok
        subst hok
        have hwf2 : ∀ j, (wrmsr64 GLOBAL_CTRL 0 m.hw).fixedCtr j ≤ CTR_MAX :=
          wrmsr64_fixedCtr_le _ _ _ hwf
        exact ⟨hwf2, fun i =>
          mt_mtc_update_fixed_counts_counts m.cpu_monotonic _ hwf2 i⟩
  | op_pmi ctx =>
    unfold step at hok
    dsimp only at hok
    cases hpmi : mt_pmi_x86_64 m ctx with
    | error e =>
      rw [hpmi] at hok
      simp at hok
    | ok out =>
      rw [hpmi] at hok
      simp only [Except.ok.injEq] at hok
      subst hok
      unfold mt_pmi_x86_64 at hpmi
      split at hpmi
      · simp at hpmi
      · dsimp only at hpmi
        split at hpmi
        · simp at hpmi
        · next mtc1 heq1 =>
          split at hpmi
          · simp at hpmi
          · next mtc2 heq2 =>
            split at hpmi
            · simp at hpmi
            · next mtc3 heq3 =>
              obtain ⟨hne1, hub1, hlb1⟩ := mt_pmi_fixed_step_counts heq1
              obtain ⟨hne2, hub2, hlb2⟩ := mt_pmi_fixed_step_counts heq2
              obtain ⟨hne3, hub3, hlb3⟩ := mt_pmi_fixed_step_counts heq3
              have hout : out.machine.cpu_monotonic = mtc3 ∧
                  (∀ j, out.machine.hw.fixedCtr j ≤ CTR_MAX) := by
                split at hpmi <;>
                · simp only [Except.ok.injEq] at hpmi
                  subst hpmi
                  exact ⟨rfl, hwf⟩
              obtain ⟨hcpu, hfix⟩ := hout
              refine ⟨hfix, fun i => ?_⟩
              rw [hcpu]
              rcases fin3_cases i with rfl | rfl | rfl
              · rw [hne3 0 (by decide), hne2 0 (by decide)]
                exact ⟨hub1, hlb1⟩
              · rw [hne1 1 (by decide)] at hub2 hlb2
                rw [hne3 1 (by decide)]
                exact ⟨hub2, hlb2⟩
              · rw [hne2 2 (by decide), hne1 2 (by decide)] at hub3 hlb3
                exact ⟨hub3, hlb3⟩

/-- Sample machine for the C2 counterexample: supported, all snapshots 0,
every accumulator at the largest 64-bit value, counter 0's overflow bit
set. -/
def c2m : Machine :=
  mkMachine true (fun _ => 0) (fun _ => 2 ^ 64 - 1) (CTR_FIX_POS 0)

/-- C2 counterexample: one overflow interrupt on a machine whose
accumulator holds `2^64 - 1` DECREASES `mtc_counts[0]` (the 64-bit
addition wraps), so the claim fails as stated. -/
theorem c2_monotone_counterexample :
    (run c2m [MtOp.op_pmi 0]).map (fun m2 => m2.cpu_monotonic.mtc_counts 0) =
      .ok (2 ^ 48 - 1) ∧
    (2 ^ 48 - 1 : Nat) < c2m.cpu_monotonic.mtc_counts 0 := ⟨rfl, by decide⟩

/-- C2 amended: across any sequence of operations, `accumulated[i]` is
non-decreasing provided the 64-bit accumulator does not overflow — here
guaranteed by `accumulated[i] + 2^48 * (number of operations) < 2^64`
(each operation folds at most `2^48` into a given counter) — and the
hardware counters are within their 48-bit range. -/
theorem c2_monotone_amended (ops : List MtOp) (m m2 : Machine) (i : Fin 3)
    (hwf : ∀ j, m.hw.fixedCtr j ≤ CTR_MAX)
    (hbound : m.cpu_monotonic.mtc_counts i + 2 ^ 48 * ops.length < 2 ^ 64)
    (hrun : run m ops = .ok m2) :
    m.cpu_monotonic.mtc_counts i ≤ m2.cpu_monotonic.mtc_counts i := by
  induction ops generalizing m with
  | nil =>
    unfold run at hrun
    simp only [Except.ok.injEq] at hrun
    subst hrun
    exact le_refl _
  | cons op ops ih =>
    unfold run at hrun
    cases hstep : step m op with
    | error e =>
      rw [hstep] at hrun
      simp at hrun
    | ok m1 =>
      rw [hstep] at hrun
      obtain ⟨hwf1, hcnt⟩ := step_counts_spec m op m1 hwf hstep
      obtain ⟨hub, hlb⟩ := hcnt i
      have hlen : (op :: ops).length = ops.length + 1 := rfl
      rw [hlen] at hbound
      have hb0 : m.cpu_monotonic.mtc_counts i + 2 ^ 48 < 2 ^ 64 := by omega
      have hb1 : m1.cpu_monotonic.mtc_counts i + 2 ^ 48 * ops.length < 2 ^ 64 := by
        omega
      exact le_trans (hlb hb0) (ih m1 hwf1 hb1 hrun)

/-- Sample machine for the C2 amended witness: quiescent, counter 0's
overflow bit set. -/
def c2w_m : Machine := mkMachine true (fun _ => 0) (fun _ => 0) (CTR_FIX_POS 0)

/-- The machine after one PMI on `c2w_m`. -/
def c2w_m2 : Machine :=
  { c2w_m with
    cpu_monotonic := mt_pmi_apply (CTR_FIX_POS 0) c2w_m.cpu_monotonic
    mt_pmis := 1 }

/-- Witness for the amended C2: one PMI from the quiescent machine. -/
theorem c2_monotone_amended_witness :
    c2w_m.cpu_monotonic.mtc_counts 0 ≤ c2w_m2.cpu_monotonic.mtc_counts 0 :=
  c2_monotone_amended [MtOp.op_pmi 0] c2w_m c2w_m2 0 (by decide) (by decide)
    (by rfl)

end Monotonic
